import Mathlib

/-!
Verification development for `weather_collector.py`, a fetch → raw-log →
history-append → summary-recompute pipeline.

Shallow embedding conventions:
* The three durable files under the storage directory are an explicit `FS`
  state.  A CSV file is a list of records, each record a list of field
  strings (the `csv` module round-trips fields exactly); the raw JSON-lines
  log is a list of structured `RawLogEntry` values.  `none` means the file
  does not exist.
* A decoded observation is the association list of its JSON object; scalar
  payload values are carried as their text.
* A value produced by `float(...)` is modelled as the exact decimal
  `num / 10 ^ exp` (`DecVal`), canonicalized so distinct terms denote
  distinct values; comparisons are exact, and `str(...)` of such a value is
  `floatRepr`.  On the short decimal strings this program handles, exact
  comparison and printing agree with CPython's binary floats.
* Python string comparison (code-point lexicographic) is `strLt`.
* Exceptions (`KeyError`, `ValueError` from `fromisoformat`/`float`, and
  injected I/O faults of the environment) are `RunError` values; a step
  returns the state as written so far together with an optional error, which
  models that the `with open(...)` blocks flush partial writes even when an
  exception escapes the loop.
-/

deriving instance DecidableEq for Except

/-- A decoded JSON observation object: association list of field name to
scalar value text. -/
abbrev Obs := List (String × String)

/-- Dictionary access `r[k]` on a decoded observation (`none` = `KeyError`).
A dict built by `json.loads` has no duplicate keys, so first-match suffices. -/
def obsGet : Obs → String → Option String
  | [], _ => none
  | (k', v) :: rest, k => if k' = k then some v else obsGet rest k

/-- Errors that can escape one run. -/
inductive RunError
  | keyError (key : String)
  | valueError (what : String)
  | ioError (msg : String)
deriving DecidableEq

/-- One line of `raw_api_log.jsonl`: `{"fetched_at": ..., "records": ...}`. -/
structure RawLogEntry where
  fetched_at : String
  records : Option (List Obs)
deriving DecidableEq

/-- The three durable files under the storage directory (`Report/`).
`none` means the file does not exist. -/
structure FS where
  rawLog : Option (List RawLogEntry)
  history : Option (List (List String))
  summary : Option (List (List String))
deriving DecidableEq

/-- The filesystem before the program ever ran: no file exists. -/
def emptyFS : FS := ⟨none, none, none⟩

/-- Header row written to `temperature_history.csv` (lines 101-108). -/
def historyHeader : List String :=
  ["date", "time", "district", "taluk", "station", "temperature"]

/-- Header row written to `daily_summary.csv` (lines 148-153). -/
def summaryHeader : List String :=
  ["date", "town", "max_temperature", "min_temperature"]

/-- The pure validation tail of `fetch_weather_data` (lines 62-69): the
double-decoded body either is a list of observations or is not a list.  The
network transport itself is the environment and not modelled. -/
inductive DecodedPayload
  | list (records : List Obs)
  | nonList
deriving DecidableEq

/-- Lines 66-73: a non-list payload raises `ValueError`, which the blanket
handler turns into `None` (the Unavailable signal); a list is returned as is,
its elements unexamined. -/
def validate_payload : DecodedPayload → Option (List Obs)
  | .list rs => some rs
  | .nonList => none

/-- Numeric value of a list of decimal digit characters. -/
def digitsVal (cs : List Char) : Nat :=
  cs.foldl (fun a c => a * 10 + (c.toNat - 48)) 0

/-- Gregorian leap-year test. -/
def isLeap (y : Nat) : Bool :=
  (y % 4 == 0 && y % 100 != 0) || y % 400 == 0

/-- Days in a month. -/
def daysInMonth (y m : Nat) : Nat :=
  if m = 2 then (if isLeap y then 29 else 28)
  else if m = 4 ∨ m = 6 ∨ m = 9 ∨ m = 11 then 30
  else 31

/-- Line 111 and 114, `datetime.fromisoformat(s).date().isoformat()`:
validates a leading `YYYY-MM-DD` and returns it, dropping everything from a
`'T'` or `' '` separator on.  The time-of-day component is discarded by
`.date()`, so its internal validation is not modelled. -/
def isoDatePart (s : String) : Option String :=
  match s.data with
  | y1 :: y2 :: y3 :: y4 :: '-' :: m1 :: m2 :: '-' :: d1 :: d2 :: rest =>
    if ([y1, y2, y3, y4, m1, m2, d1, d2].all Char.isDigit) then
      let y := digitsVal [y1, y2, y3, y4]
      let m := digitsVal [m1, m2]
      let d := digitsVal [d1, d2]
      if 1 ≤ m ∧ m ≤ 12 ∧ 1 ≤ d ∧ d ≤ daysInMonth y m then
        match rest with
        | [] => some (String.mk [y1, y2, y3, y4, '-', m1, m2, '-', d1, d2])
        | c :: _ =>
          if c = 'T' ∨ c = ' ' then
            some (String.mk [y1, y2, y3, y4, '-', m1, m2, '-', d1, d2])
          else none
      else none
    else none
  | _ => none

/-- Lines 110-120, the body of the normalizer loop for one observation `r`:
field accesses and the date parse in source evaluation order, producing the
CSV record `[date, time, district, taluk, station, temperature]`. -/
def obsToRow (r : Obs) : Except RunError (List String) :=
  match obsGet r "RECORDED_DATE" with
  | none => .error (.keyError "RECORDED_DATE")
  | some rd =>
    match isoDatePart rd with
    | none => .error (.valueError "fromisoformat")
    | some d =>
      match obsGet r "RECORDED_TIME" with
      | none => .error (.keyError "RECORDED_TIME")
      | some t =>
        match obsGet r "DISTRICT" with
        | none => .error (.keyError "DISTRICT")
        | some di =>
          match obsGet r "TALUKNAME" with
          | none => .error (.keyError "TALUKNAME")
          | some ta =>
            match obsGet r "STATION_NAME" with
            | none => .error (.keyError "STATION_NAME")
            | some sn =>
              match obsGet r "TEMPERATURE" with
              | none => .error (.keyError "TEMPERATURE")
              | some te => .ok [d, t, di, ta, sn, te]

/-- The records the loop of lines 110-120 writes before returning or before
the first failing observation raises, together with that error if any. -/
def runRows : List Obs → List (List String) × Option RunError
  | [] => ([], none)
  | r :: rest =>
    match obsToRow r with
    | .error e => ([], some e)
    | .ok row => (row :: (runRows rest).1, (runRows rest).2)

/-- Lines 80-87, `append_raw_log`: append one entry to the JSON-lines log
(`open("a")` creates the file when absent). -/
def append_raw_log (now : String) (payload : List Obs) (st : FS) : FS :=
  { st with rawLog := some (st.rawLog.getD [] ++ [⟨now, some payload⟩]) }

/-- Line 95 and 100-108: the content the history file holds once opened for
append — its prior content, or just the header when it did not exist. -/
def histBase (st : FS) : List (List String) :=
  match st.history with
  | some f => f
  | none => [historyHeader]

/-- Lines 94-120, `append_temperature_history`: header when the file was
absent, then one record per observation in input order; an observation that
fails leaves the earlier records written and lets the error escape. -/
def append_temperature_history (payload : List Obs) (st : FS) : FS × Option RunError :=
  ({ st with history := some (histBase st ++ (runRows payload).1) },
   (runRows payload).2)

/-- Ten to the power `k`, as an integer. -/
def pow10 : ℕ → ℤ
  | 0 => 1
  | k + 1 => 10 * pow10 k

/-- An exact decimal value `num / 10 ^ exp`, the model of a `float` this
program computes with. -/
structure DecVal where
  num : ℤ
  exp : ℕ
deriving DecidableEq

/-- Canonical form: a nonzero scale never carries a factor-of-ten slack, so
each value has exactly one representation; this is also what makes
`floatRepr` print the minimal digits CPython's `str` picks. -/
def DecVal.canon (v : DecVal) : Prop :=
  v.exp = 0 ∨ ¬ (10 : ℤ) ∣ v.num

/-- Strip factors of ten, canonicalizing `n / 10 ^ k`. -/
def stripZeros : ℤ → ℕ → DecVal
  | n, 0 => ⟨n, 0⟩
  | n, k + 1 => if (10 : ℤ) ∣ n then stripZeros (n / 10) k else ⟨n, k + 1⟩

/-- Exact comparison of two decimal values, by cross multiplication. -/
def dvLe (a b : DecVal) : Prop :=
  a.num * pow10 b.exp ≤ b.num * pow10 a.exp

instance : DecidableRel dvLe := fun a b =>
  inferInstanceAs (Decidable (a.num * pow10 b.exp ≤ b.num * pow10 a.exp))

/-- Strict exact comparison of two decimal values. -/
def dvLt (a b : DecVal) : Prop :=
  a.num * pow10 b.exp < b.num * pow10 a.exp

instance : DecidableRel dvLt := fun a b =>
  inferInstanceAs (Decidable (a.num * pow10 b.exp < b.num * pow10 a.exp))

/-- CPython `max(a, b)`: keeps `a`, replaces it when `b` is strictly
greater. -/
def dvMax (a b : DecVal) : DecVal := if dvLt a b then b else a

/-- CPython `min(a, b)`: keeps `a`, replaces it when `b` is strictly
smaller. -/
def dvMin (a b : DecVal) : DecVal := if dvLt b a then b else a

/-- The decimal value `n * 10 ^ t` in canonical form. -/
def mkDecVal (n : ℤ) (t : ℤ) : DecVal :=
  if 0 ≤ t then ⟨n * pow10 t.toNat, 0⟩ else stripZeros n (-t).toNat

/-- Line 138, `float(row["temperature"])` on decimal text: optional sign,
digits with an optional point, optional exponent, as an exact decimal.
(Forms such as `"inf"`, `"nan"` or embedded underscores that CPython also
accepts are not modelled; no history this program writes contains them.) -/
def parseFloat (s : String) : Option DecVal :=
  let cs := s.data
  let signAndRest : Bool × List Char :=
    match cs with
    | '-' :: rest => (true, rest)
    | '+' :: rest => (false, rest)
    | _ => (false, cs)
  let neg := signAndRest.1
  let ip := signAndRest.2.takeWhile Char.isDigit
  let afterIp := signAndRest.2.dropWhile Char.isDigit
  let fpAndRest : List Char × List Char :=
    match afterIp with
    | '.' :: rest => (rest.takeWhile Char.isDigit, rest.dropWhile Char.isDigit)
    | _ => ([], afterIp)
  let fp := fpAndRest.1
  if ip.isEmpty ∧ fp.isEmpty then none
  else
    let expPart : Option ℤ :=
      match fpAndRest.2 with
      | [] => some 0
      | c :: rest =>
        if c = 'e' ∨ c = 'E' then
          let esignAndRest : Bool × List Char :=
            match rest with
            | '-' :: r => (true, r)
            | '+' :: r => (false, r)
            | _ => (false, rest)
          let ed := esignAndRest.2.takeWhile Char.isDigit
          let tail := esignAndRest.2.dropWhile Char.isDigit
          if ed.isEmpty ∨ ¬ tail.isEmpty then none
          else some (if esignAndRest.1 then -(digitsVal ed : ℤ) else (digitsVal ed : ℤ))
        else none
    match expPart with
    | none => none
    | some e10 =>
      let mag : ℤ := (digitsVal (ip ++ fp) : ℤ)
      let n : ℤ := if neg then -mag else mag
      some (mkDecVal n (e10 - (fp.length : ℤ)))

/-- CPython `str` of a float holding a short decimal value: minimal decimal
digits, integral values keeping a trailing `.0` (`str(19.0) = "19.0"`,
`str(21.5) = "21.5"`). -/
def floatRepr (v : DecVal) : String :=
  let s := toString v.num.natAbs
  let sgn := if v.num < 0 then "-" else ""
  if v.exp = 0 then sgn ++ s ++ ".0"
  else
    let s := if s.length ≤ v.exp then String.mk (List.replicate (v.exp + 1 - s.length) '0') ++ s else s
    sgn ++ s.take (s.length - v.exp) ++ "." ++ s.drop (s.length - v.exp)

/-- Python `<` on strings: code-point lexicographic. -/
def strLtB : List Char → List Char → Bool
  | [], [] => false
  | [], _ :: _ => true
  | _ :: _, [] => false
  | a :: as, b :: bs =>
    if a.toNat < b.toNat then true
    else if b.toNat < a.toNat then false
    else strLtB as bs

/-- Python `a < b` on strings. -/
def strLt (a b : String) : Prop := strLtB a.data b.data = true

instance : DecidableRel strLt := fun a b =>
  inferInstanceAs (Decidable (strLtB a.data b.data = true))

/-- Python `a <= b` on strings. -/
def strLe (a b : String) : Prop := strLt a b ∨ a = b

instance : DecidableRel strLe := fun a b =>
  inferInstanceAs (Decidable (strLt a b ∨ a = b))

/-- Composite aggregation key, line 137: `(row["date"], row["station"])`. -/
abbrev SKey := String × String

/-- One entry of the `aggregates` dict: key, running max, running min. -/
abbrev AggEntry := SKey × DecVal × DecVal

/-- Python tuple `<=` on `(date, station)` string pairs. -/
def keyLe (a b : SKey) : Prop :=
  strLt a.1 b.1 ∨ (a.1 = b.1 ∧ strLe a.2 b.2)

instance : DecidableRel keyLe := fun a b =>
  inferInstanceAs (Decidable (strLt a.1 b.1 ∨ (a.1 = b.1 ∧ strLe a.2 b.2)))

/-- Python tuple `<` on `(date, station)` string pairs. -/
def keyLt (a b : SKey) : Prop :=
  strLt a.1 b.1 ∨ (a.1 = b.1 ∧ strLt a.2 b.2)

instance : DecidableRel keyLt := fun a b =>
  inferInstanceAs (Decidable (strLt a.1 b.1 ∨ (a.1 = b.1 ∧ strLt a.2 b.2)))

/-- The order `sorted(aggregates.items())` sorts by: the keys (the keys are
pairwise distinct, so tuple comparison never reaches the dict values). -/
def entryLe (x y : AggEntry) : Prop := keyLe x.1 y.1

instance : DecidableRel entryLe := fun x y =>
  inferInstanceAs (Decidable (keyLe x.1 y.1))

/-- Lines 140-144: insert one temperature into the `aggregates` dict,
initializing from the first value for a new key, else updating by `max`/`min`
(CPython dicts preserve insertion order). -/
def updAgg : List AggEntry → SKey → DecVal → List AggEntry
  | [], k, t => [(k, t, t)]
  | e :: rest, k, t =>
    if e.1 = k then (k, dvMax e.2.1 t, dvMin e.2.2 t) :: rest
    else e :: updAgg rest k t

/-- One step of the reader loop of lines 136-144. -/
def stepAgg (m : List AggEntry) (e : SKey × DecVal) : List AggEntry :=
  updAgg m e.1 e.2

/-- Lines 131-144: the `aggregates` dict built from the parsed data rows. -/
def buildAgg (l : List (SKey × DecVal)) : List AggEntry :=
  l.foldl stepAgg []

/-- Keys of an aggregates dict, in insertion order. -/
def aggKeys (m : List AggEntry) : List SKey :=
  m.map (fun e => e.1)

/-- Lookup in the aggregates dict. -/
def aggLookup : List AggEntry → SKey → Option (DecVal × DecVal)
  | [], _ => none
  | e :: rest, k => if e.1 = k then some e.2 else aggLookup rest k

/-- The temperatures of the rows carrying a given key, in file order. -/
def groupTemps : List (SKey × DecVal) → SKey → List DecVal
  | [], _ => []
  | e :: rest, k => if e.1 = k then e.2 :: groupTemps rest k else groupTemps rest k

/-- Folding one temperature into an optional running (max, min) pair;
`updAgg` does exactly this at the looked-up key. -/
def comb1 : Option (DecVal × DecVal) → DecVal → Option (DecVal × DecVal)
  | none, t => some (t, t)
  | some p, t => some (dvMax p.1 t, dvMin p.2 t)

/-- Column access of `csv.DictReader` rows: last duplicate header name wins;
a column beyond the row's length holds `None`, surfaced here as a lookup
failure because every use in the source immediately fails on a `None`. -/
def lastIdx : List String → String → Option Nat
  | [], _ => none
  | h :: t, name =>
    match lastIdx t name with
    | some i => some (i + 1)
    | none => if h = name then some 0 else none

/-- Value of column `name` in `row` under header `hd` (`row[name]`). -/
def dictRowGet (hd row : List String) (name : String) : Option String :=
  (lastIdx hd name).bind (fun i => row.get? i)

/-- Lines 137-138 for one data row: the key and the parsed temperature. -/
def parseHistoryRow (hd row : List String) : Except RunError (SKey × DecVal) :=
  match dictRowGet hd row "date" with
  | none => .error (.keyError "date")
  | some d =>
    match dictRowGet hd row "station" with
    | none => .error (.keyError "station")
    | some sn =>
      match dictRowGet hd row "temperature" with
      | none => .error (.keyError "temperature")
      | some ts =>
        match parseFloat ts with
        | none => .error (.valueError "float")
        | some t => .ok ((d, sn), t)

/-- The reader loop over all data rows, first error wins. -/
def parseHistoryRows (hd : List String) : List (List String) → Except RunError (List (SKey × DecVal))
  | [] => .ok []
  | r :: rest =>
    match parseHistoryRow hd r with
    | .error e => .error e
    | .ok p =>
      match parseHistoryRows hd rest with
      | .error e => .error e
      | .ok ps => .ok (p :: ps)

/-- One output row of the summary table, lines 155-161. -/
def entryRow (e : AggEntry) : List String :=
  [e.1.1, e.1.2, floatRepr e.2.1, floatRepr e.2.2]

/-- Lines 131-161 as a function of the history file content: read all rows
grouping max/min by (date, station), then the new summary content — header
first, then one row per key in ascending key order.  The first line of the
file is the `DictReader` header; an empty file yields no rows. -/
def summaryOf (file : List (List String)) : Except RunError (List (List String)) :=
  match file with
  | [] => .ok [summaryHeader]
  | hd :: rows =>
    match parseHistoryRows hd rows with
    | .error e => .error e
    | .ok parsed =>
      .ok (summaryHeader :: (List.insertionSort entryLe (buildAgg parsed)).map entryRow)

/-- Lines 127-161, `recompute_daily_summary`: no-op when the history file
does not exist; otherwise the whole file is read first, so a parse error
escapes before the summary file is opened and leaves it untouched; on a clean
read the summary is rewritten from scratch. -/
def recompute_daily_summary (st : FS) : FS × Option RunError :=
  match st.history with
  | none => (st, none)
  | some file =>
    match summaryOf file with
    | .error e => (st, some e)
    | .ok out => ({ st with summary := some out }, none)

/-- Injected environment faults: `some msg` makes the corresponding file
operation raise an `OSError`-like failure instead of performing the write. -/
structure Faults where
  raw : Option String
  hist : Option String
  summ : Option String
deriving DecidableEq

/-- A healthy local filesystem: no write fails. -/
def noFaults : Faults := ⟨none, none, none⟩

/-- Lines 178-180, the write path of `main` after a successful fetch: the
three store operations in order, no exception handler anywhere — the state
written so far and the first error, if any. -/
def writeSteps (f : Faults) (now : String) (payload : List Obs) (st : FS) :
    FS × Option RunError :=
  match f.raw with
  | some m => (st, some (.ioError m))
  | none =>
    let st1 := append_raw_log now payload st
    match f.hist with
    | some m => (st1, some (.ioError m))
    | none =>
      match append_temperature_history payload st1 with
      | (st2, some e) => (st2, some e)
      | (st2, none) =>
        match f.summ with
        | some m => (st2, some (.ioError m))
        | none => recompute_daily_summary st2

/-- Outcome of one run of `main`. -/
inductive RunOutcome
  | skip
  | success (count : Nat)
deriving DecidableEq

/-- Lines 168-183, `main`: a `None` fetch result returns normally after
logging a skip, touching no store; otherwise the write path runs with no
handler, so its first error escapes; on clean writes the run reports success
with the record count. -/
def mainRun (f : Faults) (now : String) (fetchResult : Option (List Obs)) (st : FS) :
    FS × Except RunError RunOutcome :=
  match fetchResult with
  | none => (st, .ok .skip)
  | some payload =>
    match writeSteps f now payload st with
    | (st', some e) => (st', .error e)
    | (st', none) => (st', .ok (.success payload.length))

/-- A sequence of scheduler-triggered runs on healthy storage, stopping at the
first run that dies with an exception; `true` means every run returned
normally. -/
def runAll (now : String) : List (List Obs) → FS → FS × Bool
  | [], st => (st, true)
  | p :: rest, st =>
    match mainRun noFaults now (some p) st with
    | (st', .ok _) => runAll now rest st'
    | (st', .error _) => (st', false)

/-- The history data rows a sequence of payloads contributes, run order
outside, input order inside each run. -/
def historyRowsOf : List (List Obs) → List (List String)
  | [] => []
  | p :: rest => (runRows p).1 ++ historyRowsOf rest

/-- Default `csv` module quoting of one field. -/
def csvQuote (s : String) : String :=
  if s.data.any (fun c => c = ',' ∨ c = '"' ∨ c = '\n' ∨ c = '\r') then
    "\"" ++ (s.data.foldr (fun c acc => if c = '"' then "\"\"" ++ acc else String.mk [c] ++ acc) "") ++ "\""
  else s

/-- Default `csv.writer` serialization of one record (lineterminator
`"\r\n"`). -/
def csvLine (fields : List String) : String :=
  String.intercalate "," (fields.map csvQuote) ++ "\r\n"

/-- Bytes of a CSV file as the `csv` module writes the given records. -/
def csvBytes (records : List (List String)) : String :=
  String.join (records.map csvLine)

/-- Key of one summary output row: its first two fields (date, town). -/
def rowKey2 (row : List String) : SKey := (row.getD 0 "", row.getD 1 "")

/-- Test fixture: an observation missing the required TEMPERATURE field. -/
def badObs : Obs :=
  [("RECORDED_DATE", "2024-01-01"), ("RECORDED_TIME", "10:00"), ("DISTRICT", "D"),
   ("TALUKNAME", "T"), ("STATION_NAME", "S")]

/-- Test fixture: an observation whose temperature text is not numeric. -/
def badTempObs : Obs :=
  [("RECORDED_DATE", "2024-01-01"), ("RECORDED_TIME", "10:00"), ("DISTRICT", "D"),
   ("TALUKNAME", "T"), ("STATION_NAME", "S"), ("TEMPERATURE", "abc")]

/-- Test fixture: a well-formed observation for station A. -/
def oA : Obs :=
  [("RECORDED_DATE", "2024-01-01"), ("RECORDED_TIME", "10:00"), ("DISTRICT", "D"),
   ("TALUKNAME", "T"), ("STATION_NAME", "A"), ("TEMPERATURE", "21.5")]

/-- Test fixture: a well-formed observation for station B. -/
def oB : Obs :=
  [("RECORDED_DATE", "2024-01-01"), ("RECORDED_TIME", "10:15"), ("DISTRICT", "D"),
   ("TALUKNAME", "T"), ("STATION_NAME", "B"), ("TEMPERATURE", "19.0")]

/-- Test fixture: a History record for station A. -/
def hRowA : List String := ["2024-01-01", "09:00", "D", "T", "A", "21.5"]

/-- Test fixture: a History record for station B with a later date. -/
def hRowB : List String := ["2024-01-02", "09:00", "D", "T", "B", "20.0"]

/-- The summary content for a History holding `hRowA` and `hRowB`. -/
def outEx : List (List String) :=
  [summaryHeader, ["2024-01-01", "A", "21.5", "21.5"], ["2024-01-02", "B", "20.0", "20.0"]]

/-- Test fixture: a state whose summary file holds stale content. -/
def stC5 : FS := FS.mk none (some [historyHeader, hRowA]) (some [["junk"]])

/-- The state `stC5` after one recompute. -/
def stC5x : FS :=
  FS.mk none (some [historyHeader, hRowA]) (some [summaryHeader, ["2024-01-01", "A", "21.5", "21.5"]])

/-- The worked example of the spec: one key with temperatures 21.5, 19.0, 23.2. -/
def exGroup : List (SKey × DecVal) :=
  [(("2024-01-01", "X"), ⟨215, 1⟩), (("2024-01-01", "X"), ⟨19, 0⟩), (("2024-01-01", "X"), ⟨232, 1⟩)]

lemma histBase_update_rawLog (x : Option (List RawLogEntry)) (st : FS) :
    histBase { st with rawLog := x } = histBase st := rfl

lemma writeSteps_noFaults_eq (now : String) (p : List Obs) (st : FS) :
    writeSteps noFaults now p st =
      match (runRows p).2 with
      | some e =>
        (FS.mk (some (st.rawLog.getD [] ++ [⟨now, some p⟩]))
          (some (histBase st ++ (runRows p).1)) st.summary, some e)
      | none =>
        recompute_daily_summary
          (FS.mk (some (st.rawLog.getD [] ++ [⟨now, some p⟩]))
            (some (histBase st ++ (runRows p).1)) st.summary) := by
  cases h : (runRows p).2 with
  | none =>
    simp only [writeSteps, noFaults, append_raw_log, append_temperature_history,
      histBase_update_rawLog, h]
  | some e =>
    simp only [writeSteps, noFaults, append_raw_log, append_temperature_history,
      histBase_update_rawLog, h]

lemma recompute_eq_none (st : FS) (h : st.history = none) :
    recompute_daily_summary st = (st, none) := by
  unfold recompute_daily_summary
  rw [h]

lemma recompute_eq_err (st : FS) (f : List (List String)) (e : RunError)
    (h : st.history = some f) (hs : summaryOf f = .error e) :
    recompute_daily_summary st = (st, some e) := by
  unfold recompute_daily_summary
  simp only [h, hs]

lemma recompute_eq_ok (st : FS) (f out : List (List String))
    (h : st.history = some f) (hs : summaryOf f = .ok out) :
    recompute_daily_summary st = ({ st with summary := some out }, none) := by
  unfold recompute_daily_summary
  simp only [h, hs]

lemma obsToRow_ok_shape (r : Obs) (row : List String) (h : obsToRow r = .ok row) :
    ∃ rd d t di ta sn te,
      obsGet r "RECORDED_DATE" = some rd ∧ isoDatePart rd = some d ∧
      obsGet r "RECORDED_TIME" = some t ∧ obsGet r "DISTRICT" = some di ∧
      obsGet r "TALUKNAME" = some ta ∧ obsGet r "STATION_NAME" = some sn ∧
      obsGet r "TEMPERATURE" = some te ∧ row = [d, t, di, ta, sn, te] := by
  unfold obsToRow at h
  split at h <;> try (cases h)
  next rd hrd =>
  split at h <;> try (cases h)
  next d hd =>
  split at h <;> try (cases h)
  next t ht =>
  split at h <;> try (cases h)
  next di hdi =>
  split at h <;> try (cases h)
  next ta hta =>
  split at h <;> try (cases h)
  next sn hsn =>
  split at h <;> try (cases h)
  next te hte =>
  exact ⟨rd, d, t, di, ta, sn, te, hrd, hd, ht, hdi, hta, hsn, hte, rfl⟩


/-- C1: when the Fetcher reports Unavailable the run touches no store and
returns normally with a skip. -/
theorem C1_unavailable_skips_without_mutation (f : Faults) (now : String) (st : FS) :
    mainRun f now none st = (st, .ok .skip) := rfl

/-- C2: after a successful fetch, an error raised anywhere on the write path
escapes `main` unchanged, with the state as written so far. -/
theorem C2_write_error_propagates (f : Faults) (now : String) (p : List Obs)
    (st st' : FS) (e : RunError) (h : writeSteps f now p st = (st', some e)) :
    mainRun f now (some p) st = (st', .error e) := by
  simp only [mainRun, h]

theorem C2_write_error_propagates_witness :
    mainRun ⟨some "disk full", none, none⟩ "TS" (some []) emptyFS =
      (emptyFS, .error (.ioError "disk full")) :=
  C2_write_error_propagates ⟨some "disk full", none, none⟩ "TS" [] emptyFS emptyFS
    (.ioError "disk full") (by decide)

/-- C3 counterexample: a payload whose observation lacks TEMPERATURE passes
fetch validation (it is a list), and the run then errors after mutating the
raw log — it is not skipped and the store is not left untouched. -/
theorem C3_counterexample :
    validate_payload (.list [badObs]) = some [badObs] ∧
    (mainRun noFaults "TS" (some [badObs]) emptyFS).2 = .error (.keyError "TEMPERATURE") ∧
    (mainRun noFaults "TS" (some [badObs]) emptyFS).1.rawLog = some [⟨"TS", some [badObs]⟩] :=
  ⟨rfl, by decide, by decide⟩

/-- C3 amended: the fetch stage passes any list payload through unexamined;
an observation failure during normalization (e.g. a missing required field)
aborts the run with that error after the raw log was appended and the header
plus the rows before the failure were written to History. -/
theorem C3_amended_field_error_aborts_after_rawlog (now : String) (st : FS)
    (p : List Obs) (e : RunError) (h : (runRows p).2 = some e) :
    validate_payload (.list p) = some p ∧
    mainRun noFaults now (some p) st =
      (FS.mk (some (st.rawLog.getD [] ++ [⟨now, some p⟩]))
        (some (histBase st ++ (runRows p).1)) st.summary, .error e) := by
  refine ⟨rfl, ?_⟩
  simp only [mainRun, writeSteps_noFaults_eq, h]

theorem C3_amended_witness :
    validate_payload (.list [badObs]) = some [badObs] ∧
    mainRun noFaults "TS" (some [badObs]) emptyFS =
      (FS.mk (some [⟨"TS", some [badObs]⟩]) (some [historyHeader]) none,
        .error (.keyError "TEMPERATURE")) := by
  have h := C3_amended_field_error_aborts_after_rawlog "TS" emptyFS [badObs]
    (.keyError "TEMPERATURE") (by decide)
  exact ⟨h.1, h.2.trans (by decide)⟩

/-- C8 counterexample: an observation with non-numeric TEMPERATURE "abc" is
written to History by the normalizer without error, and the run fails only
inside the Aggregator when `float` parses the stored text. -/
theorem C8_counterexample :
    (append_temperature_history [badTempObs] emptyFS).2 = none ∧
    (mainRun noFaults "TS" (some [badTempObs]) emptyFS).1.history =
      some [historyHeader, ["2024-01-01", "10:00", "D", "T", "S", "abc"]] ∧
    (mainRun noFaults "TS" (some [badTempObs]) emptyFS).2 = .error (.valueError "float") :=
  ⟨by decide, by decide, by decide⟩

/-- C8 amended: a non-numeric temperature is not rejected before the
Aggregator: when normalization succeeds, the recompute stage reads the stored
text, and its parse failure is the error that aborts the run, after raw log
and History were mutated. -/
theorem C8_amended_parse_error_in_aggregator (now : String) (st : FS)
    (p : List Obs) (e : RunError) (hn : (runRows p).2 = none)
    (ha : summaryOf (histBase st ++ (runRows p).1) = .error e) :
    mainRun noFaults now (some p) st =
      (FS.mk (some (st.rawLog.getD [] ++ [⟨now, some p⟩]))
        (some (histBase st ++ (runRows p).1)) st.summary, .error e) := by
  have hrec := recompute_eq_err
    (FS.mk (some (st.rawLog.getD [] ++ [⟨now, some p⟩]))
      (some (histBase st ++ (runRows p).1)) st.summary)
    (histBase st ++ (runRows p).1) e rfl ha
  simp only [mainRun, writeSteps_noFaults_eq, hn, hrec]

theorem C8_amended_witness :
    mainRun noFaults "TS" (some [badTempObs]) emptyFS =
      (FS.mk (some [⟨"TS", some [badTempObs]⟩])
        (some [historyHeader, ["2024-01-01", "10:00", "D", "T", "S", "abc"]]) none,
        .error (.valueError "float")) := by
  have h := C8_amended_parse_error_in_aggregator "TS" emptyFS [badTempObs]
    (.valueError "float") (by decide) (by decide)
  exact h.trans (by decide)

/-- C9: the temperature text stored in each History record is exactly the
TEMPERATURE value received in the corresponding observation. -/
theorem C9_temperature_passthrough (p : List Obs) (h : (runRows p).2 = none) :
    (runRows p).1.map (fun row => row.get? 5) =
      p.map (fun r => obsGet r "TEMPERATURE") := by
  induction p with
  | nil => simp [runRows]
  | cons r rest ih =>
    cases hr : obsToRow r with
    | error e => rw [runRows, hr] at h; cases h
    | ok row =>
      rw [runRows, hr] at h
      simp only at h
      obtain ⟨rd, d, t, di, ta, sn, te, _, _, _, _, _, _, hte, hrow⟩ :=
        obsToRow_ok_shape r row hr
      simp only [runRows, hr, List.map_cons]
      rw [ih h, hrow, hte]
      rfl

theorem C9_temperature_passthrough_witness :
    (runRows [oA]).1.map (fun row => row.get? 5) =
      [oA].map (fun r => obsGet r "TEMPERATURE") :=
  C9_temperature_passthrough [oA] (by decide)

/-- C10: an empty fetched list is a successful run with count 0: one raw log
entry with empty records, History created with only the header when absent
(else unchanged), and the summary recomputed. -/
theorem C10_empty_payload_success (now : String) (st : FS) (out : List (List String))
    (h : summaryOf (histBase st) = .ok out) :
    mainRun noFaults now (some []) st =
      (FS.mk (some (st.rawLog.getD [] ++ [⟨now, some []⟩]))
        (some (histBase st)) (some out), .ok (.success 0)) := by
  have hrec := recompute_eq_ok
    (FS.mk (some (st.rawLog.getD [] ++ [⟨now, some []⟩]))
      (some (histBase st)) st.summary)
    (histBase st) out rfl h
  simp only [mainRun, writeSteps_noFaults_eq, runRows, List.append_nil, hrec,
    List.length_nil]

theorem C10_empty_payload_success_witness :
    mainRun noFaults "TS" (some []) emptyFS =
      (FS.mk (some [⟨"TS", some []⟩]) (some [historyHeader]) (some [summaryHeader]),
        .ok (.success 0)) := by
  have h := C10_empty_payload_success "TS" emptyFS [summaryHeader] (by decide)
  exact h.trans (by decide)

lemma recompute_fst_history (st : FS) :
    ((recompute_daily_summary st).1).history = st.history := by
  unfold recompute_daily_summary
  cases h : st.history with
  | none => simp [h]
  | some f => cases hs : summaryOf f <;> simp [hs, h]

lemma mainRun_ok_state (now : String) (p : List Obs) (st st' : FS) (o : RunOutcome)
    (h : mainRun noFaults now (some p) st = (st', .ok o)) :
    (runRows p).2 = none ∧
    st'.history = some (histBase st ++ (runRows p).1) ∧ o = .success p.length := by
  simp only [mainRun, writeSteps_noFaults_eq] at h
  cases hr : (runRows p).2 with
  | some e =>
    rw [hr] at h
    simp only at h
    injection h with h1 h2
    injection h2
  | none =>
    rw [hr] at h
    simp only at h
    cases hrec : recompute_daily_summary
        (FS.mk (some (st.rawLog.getD [] ++ [⟨now, some p⟩]))
          (some (histBase st ++ (runRows p).1)) st.summary) with
    | mk st3 o3 =>
      rw [hrec] at h
      cases o3 with
      | some e =>
        simp only at h
        injection h with h1 h2
        injection h2
      | none =>
        simp only at h
        injection h with h1 h2
        injection h2 with h3
        have hh := recompute_fst_history
          (FS.mk (some (st.rawLog.getD [] ++ [⟨now, some p⟩]))
            (some (histBase st ++ (runRows p).1)) st.summary)
        rw [hrec] at hh
        exact ⟨rfl, h1 ▸ hh, h3.symm⟩

lemma runRows_length (p : List Obs) (h : (runRows p).2 = none) :
    (runRows p).1.length = p.length := by
  induction p with
  | nil => rfl
  | cons r rest ih =>
    cases hr : obsToRow r with
    | error e => rw [runRows, hr] at h; cases h
    | ok row =>
      rw [runRows, hr] at h
      simp only at h
      simp only [runRows, hr, List.length_cons]
      rw [ih h]

lemma historyRowsOf_length (ps : List (List Obs))
    (h : ∀ p ∈ ps, (runRows p).2 = none) :
    (historyRowsOf ps).length = (ps.map List.length).sum := by
  induction ps with
  | nil => rfl
  | cons p rest ih =>
    simp only [historyRowsOf, List.length_append, List.map_cons, List.sum_cons]
    rw [runRows_length p (h p (List.mem_cons_self p rest)),
      ih (fun q hq => h q (List.mem_cons_of_mem p hq))]

lemma runAll_inv (now : String) (ps : List (List Obs)) :
    ∀ (st : FS) (f : List (List String)), st.history = some f →
      (runAll now ps st).2 = true →
      (runAll now ps st).1.history = some (f ++ historyRowsOf ps) ∧
      ∀ p ∈ ps, (runRows p).2 = none := by
  induction ps with
  | nil =>
    intro st f h _
    simp [runAll, historyRowsOf, h]
  | cons p rest ih =>
    intro st f h hs
    cases hm : mainRun noFaults now (some p) st with
    | mk st' r =>
      cases r with
      | error e =>
        rw [runAll, hm] at hs
        cases hs
      | ok o =>
        rw [runAll, hm] at hs ⊢
        obtain ⟨hp, hh, _⟩ := mainRun_ok_state now p st st' o hm
        have hbase : histBase st = f := by simp [histBase, h]
        rw [hbase] at hh
        obtain ⟨ih1, ih2⟩ := ih st' (f ++ (runRows p).1) hh hs
        refine ⟨?_, ?_⟩
        · rw [ih1, historyRowsOf, List.append_assoc]
        · intro q hq
          rcases List.mem_cons.mp hq with hq | hq
          · exact hq ▸ hp
          · exact ih2 q hq

/-- C7: starting with no History file, a sequence of successful runs leaves
History holding exactly one header line followed by each run's rows in run
order, input order within a run, totalling the sum of the payload sizes. -/
theorem C7_history_append_only (now : String) (p0 : List Obs) (ps : List (List Obs))
    (st : FS) (h0 : st.history = none) (hs : (runAll now (p0 :: ps) st).2 = true) :
    (runAll now (p0 :: ps) st).1.history =
      some (historyHeader :: historyRowsOf (p0 :: ps)) ∧
    (historyRowsOf (p0 :: ps)).length = ((p0 :: ps).map List.length).sum := by
  cases hm : mainRun noFaults now (some p0) st with
  | mk st' r =>
    cases r with
    | error e =>
      rw [runAll, hm] at hs
      cases hs
    | ok o =>
      rw [runAll, hm] at hs ⊢
      obtain ⟨hp, hh, _⟩ := mainRun_ok_state now p0 st st' o hm
      have hbase : histBase st = [historyHeader] := by simp [histBase, h0]
      rw [hbase] at hh
      obtain ⟨ih1, ih2⟩ := runAll_inv now ps st' ([historyHeader] ++ (runRows p0).1) hh hs
      constructor
      · rw [ih1, historyRowsOf, List.append_assoc]
        rfl
      · exact historyRowsOf_length (p0 :: ps) (by
          intro q hq
          rcases List.mem_cons.mp hq with hq | hq
          · exact hq ▸ hp
          · exact ih2 q hq)

theorem C7_history_append_only_witness :
    (runAll "TS" [[oA], [oB]] emptyFS).1.history =
      some (historyHeader :: historyRowsOf [[oA], [oB]]) ∧
    (historyRowsOf [[oA], [oB]]).length = (([[oA], [oB]] : List (List Obs)).map List.length).sum :=
  C7_history_append_only "TS" [oA] [[oB]] emptyFS rfl (by decide)

lemma char_toNat_inj (a b : Char) (h : a.toNat = b.toNat) : a = b := by
  cases a; cases b
  simp only [Char.toNat] at h
  congr 1
  exact UInt32.ext h

lemma string_data_inj (a b : String) (h : a.data = b.data) : a = b := by
  cases a; cases b
  congr 1

lemma strLtB_irrefl (l : List Char) : strLtB l l = false := by
  induction l with
  | nil => rfl
  | cons a as ih =>
    rw [strLtB, if_neg (Nat.lt_irrefl _), if_neg (Nat.lt_irrefl _), ih]

lemma strLtB_antisymm : ∀ l₁ l₂ : List Char,
    strLtB l₁ l₂ = false → strLtB l₂ l₁ = false → l₁ = l₂
  | [], [], _, _ => rfl
  | [], _ :: _, h₁, _ => by rw [strLtB] at h₁; cases h₁
  | _ :: _, [], _, h₂ => by rw [strLtB] at h₂; cases h₂
  | a :: as, b :: bs, h₁, h₂ => by
    rw [strLtB] at h₁ h₂
    rcases Nat.lt_trichotomy a.toNat b.toNat with hab | hab | hab
    · rw [if_pos hab] at h₁; cases h₁
    · rw [if_neg (by omega), if_neg (by omega)] at h₁ h₂
      rw [char_toNat_inj a b hab, strLtB_antisymm as bs h₁ h₂]
    · rw [if_pos hab] at h₂; cases h₂

lemma strLtB_trans : ∀ l₁ l₂ l₃ : List Char,
    strLtB l₁ l₂ = true → strLtB l₂ l₃ = true → strLtB l₁ l₃ = true
  | [], _ :: _, _ :: _, _, _ => rfl
  | [], _ :: _, [], _, h₂ => by rw [strLtB] at h₂; cases h₂
  | [], [], _, h₁, _ => by rw [strLtB] at h₁; cases h₁
  | _ :: _, [], _, h₁, _ => by rw [strLtB] at h₁; cases h₁
  | _ :: _, _ :: _, [], _, h₂ => by rw [strLtB] at h₂; cases h₂
  | a :: as, b :: bs, c :: cs, h₁, h₂ => by
    rw [strLtB] at h₁ h₂ ⊢
    rcases Nat.lt_trichotomy a.toNat b.toNat with hab | hab | hab
    · rcases Nat.lt_trichotomy b.toNat c.toNat with hbc | hbc | hbc
      · rw [if_pos (by omega)]
      · rw [if_pos (by omega)]
      · rw [if_neg (by omega), if_pos hbc] at h₂; cases h₂
    · rcases Nat.lt_trichotomy b.toNat c.toNat with hbc | hbc | hbc
      · rw [if_pos (by omega)]
      · rw [if_neg (by omega), if_neg (by omega)] at h₁ h₂ ⊢
        exact strLtB_trans as bs cs h₁ h₂
      · rw [if_neg (by omega), if_pos hbc] at h₂; cases h₂
    · rw [if_neg (by omega), if_pos hab] at h₁; cases h₁

lemma strLt_irrefl (a : String) : ¬ strLt a a := by
  unfold strLt
  rw [strLtB_irrefl]
  simp

lemma strLt_trans {a b c : String} (h₁ : strLt a b) (h₂ : strLt b c) : strLt a c :=
  strLtB_trans a.data b.data c.data h₁ h₂

lemma strLt_asymm {a b : String} (h₁ : strLt a b) (h₂ : strLt b a) : False :=
  strLt_irrefl a (strLt_trans h₁ h₂)

lemma str_trichotomy (a b : String) : strLt a b ∨ a = b ∨ strLt b a := by
  by_cases h₁ : strLt a b
  · exact Or.inl h₁
  · by_cases h₂ : strLt b a
    · exact Or.inr (Or.inr h₂)
    · refine Or.inr (Or.inl ?_)
      unfold strLt at h₁ h₂
      exact string_data_inj a b
        (strLtB_antisymm a.data b.data (Bool.not_eq_true _ ▸ h₁) (Bool.not_eq_true _ ▸ h₂))

lemma strLe_refl (a : String) : strLe a a := Or.inr rfl

lemma strLe_total (a b : String) : strLe a b ∨ strLe b a := by
  rcases str_trichotomy a b with h | h | h
  · exact Or.inl (Or.inl h)
  · exact Or.inl (Or.inr h)
  · exact Or.inr (Or.inl h)

lemma strLe_trans {a b c : String} (h₁ : strLe a b) (h₂ : strLe b c) : strLe a c := by
  rcases h₁ with h₁ | rfl
  · rcases h₂ with h₂ | rfl
    · exact Or.inl (strLt_trans h₁ h₂)
    · exact Or.inl h₁
  · exact h₂

lemma strLe_antisymm {a b : String} (h₁ : strLe a b) (h₂ : strLe b a) : a = b := by
  rcases h₁ with h₁ | rfl
  · rcases h₂ with h₂ | rfl
    · exact absurd h₂ (fun h => strLt_asymm h₁ h)
    · rfl
  · rfl

lemma keyLe_total (a b : SKey) : keyLe a b ∨ keyLe b a := by
  rcases str_trichotomy a.1 b.1 with h | h | h
  · exact Or.inl (Or.inl h)
  · rcases strLe_total a.2 b.2 with h2 | h2
    · exact Or.inl (Or.inr ⟨h, h2⟩)
    · exact Or.inr (Or.inr ⟨h.symm, h2⟩)
  · exact Or.inr (Or.inl h)

lemma keyLe_trans {a b c : SKey} (h₁ : keyLe a b) (h₂ : keyLe b c) : keyLe a c := by
  rcases h₁ with h₁ | ⟨he₁, hl₁⟩
  · rcases h₂ with h₂ | ⟨he₂, _⟩
    · exact Or.inl (strLt_trans h₁ h₂)
    · exact Or.inl (he₂ ▸ h₁)
  · rcases h₂ with h₂ | ⟨he₂, hl₂⟩
    · exact Or.inl (he₁ ▸ h₂)
    · exact Or.inr ⟨he₁.trans he₂, strLe_trans hl₁ hl₂⟩

lemma keyLe_antisymm {a b : SKey} (h₁ : keyLe a b) (h₂ : keyLe b a) : a = b := by
  rcases h₁ with h₁ | ⟨he₁, hl₁⟩
  · rcases h₂ with h₂ | ⟨he₂, _⟩
    · exact absurd h₂ (fun h => strLt_asymm h₁ h)
    · exact absurd (he₂ ▸ h₁) (strLt_irrefl _)
  · rcases h₂ with h₂ | ⟨_, hl₂⟩
    · exact absurd (he₁ ▸ h₂) (strLt_irrefl _)
    · cases a; cases b
      simp only at he₁ hl₁ hl₂
      simp [he₁, strLe_antisymm hl₁ hl₂]

lemma keyLt_of_keyLe_ne {a b : SKey} (h : keyLe a b) (hne : a ≠ b) : keyLt a b := by
  rcases h with h | ⟨he, hl⟩
  · exact Or.inl h
  · rcases hl with hl | hl
    · exact Or.inr ⟨he, hl⟩
    · exact absurd (by cases a; cases b; simp only at he hl; simp [he, hl]) hne

instance : IsTotal AggEntry entryLe := ⟨fun a b => keyLe_total a.1 b.1⟩

instance : IsTrans AggEntry entryLe := ⟨fun _ _ _ h₁ h₂ => keyLe_trans h₁ h₂⟩

lemma pow10_pos (k : ℕ) : 0 < pow10 k := by
  induction k with
  | zero => norm_num [pow10]
  | succ k ih => rw [pow10]; positivity

lemma pow10_add (m n : ℕ) : pow10 (m + n) = pow10 m * pow10 n := by
  induction m with
  | zero => simp [pow10]
  | succ m ih => rw [Nat.succ_add, pow10, pow10, ih]; ring

lemma dvLe_refl (a : DecVal) : dvLe a a := le_refl _

lemma dvLe_of_dvLt {a b : DecVal} (h : dvLt a b) : dvLe a b := le_of_lt h

lemma dvLe_of_not_dvLt {a b : DecVal} (h : ¬ dvLt a b) : dvLe b a := by
  unfold dvLt at h
  unfold dvLe
  omega

lemma dvLe_trans {a b c : DecVal} (h₁ : dvLe a b) (h₂ : dvLe b c) : dvLe a c := by
  unfold dvLe at h₁ h₂ ⊢
  have k₁ := mul_le_mul_of_nonneg_right h₁ (pow10_pos c.exp).le
  have k₂ := mul_le_mul_of_nonneg_right h₂ (pow10_pos a.exp).le
  have k₃ : a.num * pow10 c.exp * pow10 b.exp ≤ c.num * pow10 a.exp * pow10 b.exp := by
    nlinarith [k₁, k₂]
  exact le_of_mul_le_mul_right k₃ (pow10_pos b.exp)

lemma stripZeros_canon : ∀ (k : ℕ) (n : ℤ), (stripZeros n k).canon
  | 0, n => Or.inl rfl
  | k + 1, n => by
    rw [stripZeros]
    by_cases h : (10 : ℤ) ∣ n
    · rw [if_pos h]; exact stripZeros_canon k (n / 10)
    · rw [if_neg h]; exact Or.inr h

lemma mkDecVal_canon (n t : ℤ) : (mkDecVal n t).canon := by
  unfold mkDecVal
  by_cases h : 0 ≤ t
  · rw [if_pos h]; exact Or.inl rfl
  · rw [if_neg h]; exact stripZeros_canon _ _

lemma dv_canon_antisymm_aux : ∀ a b : DecVal, DecVal.canon a → DecVal.canon b →
    a.num * pow10 b.exp = b.num * pow10 a.exp → a.exp ≤ b.exp → a = b := by
  intro a b ha hb hcross hle
  obtain ⟨d, hd⟩ : ∃ d, b.exp = a.exp + d := ⟨b.exp - a.exp, by omega⟩
  have hnum : a.num * pow10 d = b.num := by
    have h1 : a.num * (pow10 a.exp * pow10 d) = b.num * pow10 a.exp := by
      rw [← pow10_add, ← hd]; exact hcross
    have h2 : (a.num * pow10 d) * pow10 a.exp = b.num * pow10 a.exp := by
      rw [← h1]; ring
    exact mul_right_cancel₀ (pow10_pos a.exp).ne' h2
  cases d with
  | zero =>
    have : a.num = b.num := by simpa [pow10] using hnum
    cases a; cases b
    simp only at hd hnum this ⊢
    congr 1
    omega
  | succ d' =>
    exfalso
    have hdvd : (10 : ℤ) ∣ b.num := ⟨a.num * pow10 d', by rw [← hnum, pow10]; ring⟩
    rcases hb with hb | hb
    · omega
    · exact hb hdvd

lemma dv_canon_antisymm {a b : DecVal} (ha : DecVal.canon a) (hb : DecVal.canon b)
    (h₁ : dvLe a b) (h₂ : dvLe b a) : a = b := by
  have hcross : a.num * pow10 b.exp = b.num * pow10 a.exp := le_antisymm h₁ h₂
  rcases Nat.le_total a.exp b.exp with h | h
  · exact dv_canon_antisymm_aux a b ha hb hcross h
  · exact (dv_canon_antisymm_aux b a hb ha hcross.symm h).symm

lemma dvMax_choice (a b : DecVal) : dvMax a b = a ∨ dvMax a b = b := by
  unfold dvMax
  by_cases h : dvLt a b
  · exact Or.inr (if_pos h)
  · exact Or.inl (if_neg h)

lemma dvLe_dvMax_left (a b : DecVal) : dvLe a (dvMax a b) := by
  unfold dvMax
  by_cases h : dvLt a b
  · rw [if_pos h]; exact dvLe_of_dvLt h
  · rw [if_neg h]; exact dvLe_refl a

lemma dvLe_dvMax_right (a b : DecVal) : dvLe b (dvMax a b) := by
  unfold dvMax
  by_cases h : dvLt a b
  · rw [if_pos h]; exact dvLe_refl b
  · rw [if_neg h]; exact dvLe_of_not_dvLt h

lemma dvMin_choice (a b : DecVal) : dvMin a b = a ∨ dvMin a b = b := by
  unfold dvMin
  by_cases h : dvLt b a
  · exact Or.inr (if_pos h)
  · exact Or.inl (if_neg h)

lemma dvMin_le_left (a b : DecVal) : dvLe (dvMin a b) a := by
  unfold dvMin
  by_cases h : dvLt b a
  · rw [if_pos h]; exact dvLe_of_dvLt h
  · rw [if_neg h]; exact dvLe_refl a

lemma dvMin_le_right (a b : DecVal) : dvLe (dvMin a b) b := by
  unfold dvMin
  by_cases h : dvLt b a
  · rw [if_pos h]; exact dvLe_refl b
  · rw [if_neg h]; exact dvLe_of_not_dvLt h

lemma dvLe_foldl_dvMax_init (ts : List DecVal) : ∀ t : DecVal, dvLe t (ts.foldl dvMax t) := by
  induction ts with
  | nil => exact fun t => dvLe_refl t
  | cons u ts ih =>
    intro t
    rw [List.foldl_cons]
    exact dvLe_trans (dvLe_dvMax_left t u) (ih (dvMax t u))

lemma dvLe_foldl_dvMax (ts : List DecVal) : ∀ (t x : DecVal), x ∈ t :: ts →
    dvLe x (ts.foldl dvMax t) := by
  induction ts with
  | nil =>
    intro t x hx
    rcases List.mem_singleton.mp hx with rfl
    exact dvLe_refl x
  | cons u ts ih =>
    intro t x hx
    rw [List.foldl_cons]
    rcases List.mem_cons.mp hx with rfl | hx
    · exact dvLe_trans (dvLe_dvMax_left x u) (dvLe_foldl_dvMax_init ts (dvMax x u))
    · rcases List.mem_cons.mp hx with rfl | hx
      · exact dvLe_trans (dvLe_dvMax_right t x) (dvLe_foldl_dvMax_init ts (dvMax t x))
      · exact ih (dvMax t u) x (List.mem_cons_of_mem _ hx)

lemma foldl_dvMax_mem (ts : List DecVal) : ∀ t : DecVal, ts.foldl dvMax t ∈ t :: ts := by
  induction ts with
  | nil => intro t; exact List.mem_singleton.mpr rfl
  | cons u ts ih =>
    intro t
    rw [List.foldl_cons]
    have h := ih (dvMax t u)
    rcases List.mem_cons.mp h with h | h
    · rcases dvMax_choice t u with hc | hc
      · rw [h, hc]; exact List.mem_cons_self _ _
      · rw [h, hc]; exact List.mem_cons_of_mem _ (List.mem_cons_self _ _)
    · exact List.mem_cons_of_mem _ (List.mem_cons_of_mem _ h)

lemma foldl_dvMin_init (ts : List DecVal) : ∀ t : DecVal, dvLe (ts.foldl dvMin t) t := by
  induction ts with
  | nil => exact fun t => dvLe_refl t
  | cons u ts ih =>
    intro t
    rw [List.foldl_cons]
    exact dvLe_trans (ih (dvMin t u)) (dvMin_le_left t u)

lemma foldl_dvMin_le (ts : List DecVal) : ∀ (t x : DecVal), x ∈ t :: ts →
    dvLe (ts.foldl dvMin t) x := by
  induction ts with
  | nil =>
    intro t x hx
    rcases List.mem_singleton.mp hx with rfl
    exact dvLe_refl x
  | cons u ts ih =>
    intro t x hx
    rw [List.foldl_cons]
    rcases List.mem_cons.mp hx with rfl | hx
    · exact dvLe_trans (foldl_dvMin_init ts (dvMin x u)) (dvMin_le_left x u)
    · rcases List.mem_cons.mp hx with rfl | hx
      · exact dvLe_trans (foldl_dvMin_init ts (dvMin t x)) (dvMin_le_right t x)
      · exact ih (dvMin t u) x (List.mem_cons_of_mem _ hx)

lemma foldl_dvMin_mem (ts : List DecVal) : ∀ t : DecVal, ts.foldl dvMin t ∈ t :: ts := by
  induction ts with
  | nil => intro t; exact List.mem_singleton.mpr rfl
  | cons u ts ih =>
    intro t
    rw [List.foldl_cons]
    have h := ih (dvMin t u)
    rcases List.mem_cons.mp h with h | h
    · rcases dvMin_choice t u with hc | hc
      · rw [h, hc]; exact List.mem_cons_self _ _
      · rw [h, hc]; exact List.mem_cons_of_mem _ (List.mem_cons_self _ _)
    · exact List.mem_cons_of_mem _ (List.mem_cons_of_mem _ h)

lemma foldl_dvMax_perm (t₁ t₂ : DecVal) (ts₁ ts₂ : List DecVal)
    (hp : (t₁ :: ts₁).Perm (t₂ :: ts₂)) (hc : ∀ x ∈ t₁ :: ts₁, DecVal.canon x) :
    ts₁.foldl dvMax t₁ = ts₂.foldl dvMax t₂ := by
  have m₁ := foldl_dvMax_mem ts₁ t₁
  have m₂ := foldl_dvMax_mem ts₂ t₂
  have hc₂ : ∀ x ∈ t₂ :: ts₂, DecVal.canon x := fun x hx => hc x (hp.symm.subset hx)
  exact dv_canon_antisymm (hc _ m₁) (hc₂ _ m₂)
    (dvLe_foldl_dvMax ts₂ t₂ _ (hp.subset m₁))
    (dvLe_foldl_dvMax ts₁ t₁ _ (hp.symm.subset m₂))

lemma foldl_dvMin_perm (t₁ t₂ : DecVal) (ts₁ ts₂ : List DecVal)
    (hp : (t₁ :: ts₁).Perm (t₂ :: ts₂)) (hc : ∀ x ∈ t₁ :: ts₁, DecVal.canon x) :
    ts₁.foldl dvMin t₁ = ts₂.foldl dvMin t₂ := by
  have m₁ := foldl_dvMin_mem ts₁ t₁
  have m₂ := foldl_dvMin_mem ts₂ t₂
  have hc₂ : ∀ x ∈ t₂ :: ts₂, DecVal.canon x := fun x hx => hc x (hp.symm.subset hx)
  exact dv_canon_antisymm (hc _ m₁) (hc₂ _ m₂)
    (foldl_dvMin_le ts₁ t₁ _ (hp.symm.subset m₂))
    (foldl_dvMin_le ts₂ t₂ _ (hp.subset m₁))

lemma foldl_comb1_some (ts : List DecVal) : ∀ a b : DecVal,
    ts.foldl comb1 (some (a, b)) = some (ts.foldl dvMax a, ts.foldl dvMin b) := by
  induction ts with
  | nil => intro a b; rfl
  | cons t ts ih => intro a b; rw [List.foldl_cons, comb1, List.foldl_cons, List.foldl_cons, ih]

lemma foldl_comb1_none_cons (t : DecVal) (ts : List DecVal) :
    ((t :: ts).foldl comb1 none) = some (ts.foldl dvMax t, ts.foldl dvMin t) := by
  rw [List.foldl_cons, comb1, foldl_comb1_some]

lemma foldl_comb1_none_eq_none {ts : List DecVal} (h : ts.foldl comb1 none = none) :
    ts = [] := by
  cases ts with
  | nil => rfl
  | cons t ts => rw [foldl_comb1_none_cons] at h; cases h

lemma updAgg_lookup_self : ∀ (m : List AggEntry) (k : SKey) (t : DecVal),
    aggLookup (updAgg m k t) k = comb1 (aggLookup m k) t
  | [], k, t => by simp [updAgg, aggLookup, comb1]
  | e :: rest, k, t => by
    by_cases h : e.1 = k
    · rw [updAgg, if_pos h, aggLookup, if_pos rfl, aggLookup, if_pos h, comb1]
    · rw [updAgg, if_neg h, aggLookup, if_neg h, aggLookup, if_neg h,
        updAgg_lookup_self rest k t]

lemma updAgg_lookup_other : ∀ (m : List AggEntry) (k k' : SKey) (t : DecVal),
    k' ≠ k → aggLookup (updAgg m k t) k' = aggLookup m k'
  | [], k, k', t, h => by
    simp [updAgg, aggLookup, Ne.symm h]
  | e :: rest, k, k', t, h => by
    by_cases he : e.1 = k
    · rw [updAgg, if_pos he, aggLookup, if_neg (fun hk => h hk.symm), aggLookup, he,
        if_neg (fun hk => h hk.symm)]
    · by_cases he' : e.1 = k'
      · rw [updAgg, if_neg he, aggLookup, if_pos he', aggLookup, if_pos he']
      · rw [updAgg, if_neg he, aggLookup, if_neg he', aggLookup, if_neg he',
          updAgg_lookup_other rest k k' t h]

lemma groupTemps_cons (e : SKey × DecVal) (l : List (SKey × DecVal)) (k : SKey) :
    groupTemps (e :: l) k = if e.1 = k then e.2 :: groupTemps l k else groupTemps l k := rfl

lemma foldAgg_lookup : ∀ (l : List (SKey × DecVal)) (m : List AggEntry) (k : SKey),
    aggLookup (l.foldl stepAgg m) k = (groupTemps l k).foldl comb1 (aggLookup m k)
  | [], m, k => by rw [List.foldl_nil, groupTemps, List.foldl_nil]
  | e :: l, m, k => by
    rw [List.foldl_cons, foldAgg_lookup l (stepAgg m e) k, groupTemps_cons]
    by_cases h : e.1 = k
    · rw [if_pos h, List.foldl_cons]
      have : aggLookup (stepAgg m e) k = comb1 (aggLookup m k) e.2 := by
        rw [stepAgg, h, updAgg_lookup_self]
      rw [this]
    · rw [if_neg h]
      have : aggLookup (stepAgg m e) k = aggLookup m k := by
        rw [stepAgg, updAgg_lookup_other m e.1 k e.2 (fun hk => h hk.symm)]
      rw [this]

lemma buildAgg_lookup (l : List (SKey × DecVal)) (k : SKey) :
    aggLookup (buildAgg l) k = (groupTemps l k).foldl comb1 none := by
  rw [buildAgg, foldAgg_lookup, aggLookup]

lemma aggKeys_updAgg : ∀ (m : List AggEntry) (k : SKey) (t : DecVal),
    aggKeys (updAgg m k t) = if k ∈ aggKeys m then aggKeys m else aggKeys m ++ [k]
  | [], k, t => by simp [updAgg, aggKeys]
  | e :: rest, k, t => by
    by_cases h : e.1 = k
    · rw [updAgg, if_pos h]
      have hk : k ∈ aggKeys (e :: rest) := by
        simp only [aggKeys, List.map_cons, List.mem_cons]
        exact Or.inl h.symm
      rw [if_pos hk]
      simp only [aggKeys, List.map_cons]
      rw [h]
    · rw [updAgg, if_neg h]
      have hrec := aggKeys_updAgg rest k t
      by_cases hm : k ∈ aggKeys rest
      · rw [if_pos hm] at hrec
        have hk : k ∈ aggKeys (e :: rest) := by
          simp only [aggKeys, List.map_cons, List.mem_cons]
          exact Or.inr hm
        rw [if_pos hk]
        simp only [aggKeys, List.map_cons] at hrec ⊢
        rw [hrec]
      · rw [if_neg hm] at hrec
        have hk : k ∉ aggKeys (e :: rest) := by
          simp only [aggKeys, List.map_cons, List.mem_cons]
          push_neg
          exact ⟨fun hh => h hh.symm, hm⟩
        rw [if_neg hk]
        simp only [aggKeys, List.map_cons] at hrec ⊢
        rw [hrec, List.cons_append]

lemma aggKeys_nodup_updAgg (m : List AggEntry) (k : SKey) (t : DecVal)
    (h : (aggKeys m).Nodup) : (aggKeys (updAgg m k t)).Nodup := by
  rw [aggKeys_updAgg]
  by_cases hm : k ∈ aggKeys m
  · rw [if_pos hm]; exact h
  · rw [if_neg hm]
    exact List.Nodup.append h (List.nodup_singleton k)
      (List.disjoint_singleton.mpr hm)

lemma buildAgg_keys_nodup_aux : ∀ (l : List (SKey × DecVal)) (m : List AggEntry),
    (aggKeys m).Nodup → (aggKeys (l.foldl stepAgg m)).Nodup
  | [], m, h => h
  | e :: l, m, h => by
    rw [List.foldl_cons]
    exact buildAgg_keys_nodup_aux l (stepAgg m e) (aggKeys_nodup_updAgg m e.1 e.2 h)

lemma buildAgg_keys_nodup (l : List (SKey × DecVal)) : (aggKeys (buildAgg l)).Nodup :=
  buildAgg_keys_nodup_aux l [] List.nodup_nil

lemma aggLookup_eq_none : ∀ (m : List AggEntry) (k : SKey),
    aggLookup m k = none ↔ k ∉ aggKeys m
  | [], k => by simp [aggLookup, aggKeys]
  | e :: rest, k => by
    by_cases h : e.1 = k
    · rw [aggLookup, if_pos h]
      simp only [aggKeys, List.map_cons, List.mem_cons]
      constructor
      · intro hh; cases hh
      · intro hh; exact absurd (Or.inl h.symm) hh
    · rw [aggLookup, if_neg h, aggLookup_eq_none rest k]
      simp only [aggKeys, List.map_cons, List.mem_cons]
      constructor
      · intro hh hor
        rcases hor with hor | hor
        · exact h hor.symm
        · exact hh hor
      · intro hh hor
        exact hh (Or.inr hor)

lemma mem_of_aggLookup : ∀ (m : List AggEntry) (k : SKey) (p : DecVal × DecVal),
    aggLookup m k = some p → (k, p) ∈ m
  | [], k, p, h => by cases h
  | e :: rest, k, p, h => by
    rw [aggLookup] at h
    by_cases he : e.1 = k
    · rw [if_pos he] at h
      injection h with h
      have : e = (k, p) := by
        cases e
        simp only at he h
        simp [he, h]
      exact this ▸ List.mem_cons_self _ _
    · rw [if_neg he] at h
      exact List.mem_cons_of_mem _ (mem_of_aggLookup rest k p h)

lemma aggLookup_of_mem : ∀ (m : List AggEntry) (k : SKey) (p : DecVal × DecVal),
    (aggKeys m).Nodup → (k, p) ∈ m → aggLookup m k = some p
  | [], k, p, _, h => by cases h
  | e :: rest, k, p, nd, h => by
    rw [aggKeys, List.map_cons] at nd
    rcases List.mem_cons.mp h with rfl | h
    · rw [aggLookup, if_pos rfl]
    · have hk : k ∈ aggKeys rest := by
        rw [aggKeys]
        exact List.mem_map.mpr ⟨(k, p), h, rfl⟩
      have he : e.1 ≠ k := fun hbad => (List.nodup_cons.mp nd).1 (hbad ▸ hk)
      rw [aggLookup, if_neg he]
      exact aggLookup_of_mem rest k p (List.nodup_cons.mp nd).2 h

lemma groupTemps_mem : ∀ (l : List (SKey × DecVal)) (k : SKey) (t : DecVal),
    t ∈ groupTemps l k → (k, t) ∈ l
  | [], k, t, h => by cases h
  | e :: l, k, t, h => by
    rw [groupTemps_cons] at h
    by_cases he : e.1 = k
    · rw [if_pos he] at h
      rcases List.mem_cons.mp h with heq | h
      · have : e = (k, t) := by
          cases e
          simp only at he heq ⊢
          simp [he, heq]
        exact this ▸ List.mem_cons_self _ _
      · exact List.mem_cons_of_mem _ (groupTemps_mem l k t h)
    · rw [if_neg he] at h
      exact List.mem_cons_of_mem _ (groupTemps_mem l k t h)

lemma groupTemps_eq_nil : ∀ (l : List (SKey × DecVal)) (k : SKey),
    groupTemps l k = [] ↔ k ∉ l.map (fun e => e.1)
  | [], k => by simp [groupTemps]
  | e :: l, k => by
    rw [groupTemps_cons]
    by_cases he : e.1 = k
    · rw [if_pos he]
      simp only [List.map_cons, List.mem_cons]
      constructor
      · intro hh; cases hh
      · intro hh; exact absurd (Or.inl he.symm) hh
    · rw [if_neg he, groupTemps_eq_nil l k]
      simp only [List.map_cons, List.mem_cons]
      constructor
      · intro hh hor
        rcases hor with hor | hor
        · exact he hor.symm
        · exact hh hor
      · intro hh hor
        exact hh (Or.inr hor)

lemma groupTemps_perm {l₁ l₂ : List (SKey × DecVal)} (h : l₁.Perm l₂) (k : SKey) :
    (groupTemps l₁ k).Perm (groupTemps l₂ k) := by
  induction h with
  | nil => exact List.Perm.refl _
  | cons x _ ih =>
    rw [groupTemps_cons, groupTemps_cons]
    by_cases hx : x.1 = k
    · rw [if_pos hx, if_pos hx]; exact ih.cons x.2
    · rw [if_neg hx, if_neg hx]; exact ih
  | swap x y l =>
    rw [groupTemps_cons, groupTemps_cons, groupTemps_cons, groupTemps_cons]
    by_cases hx : x.1 = k <;> by_cases hy : y.1 = k <;>
      simp only [if_pos, if_neg, hx, hy, if_true, if_false]
    · exact List.Perm.swap _ _ _
    · exact List.Perm.refl _
    · exact List.Perm.refl _
    · exact List.Perm.refl _
  | trans _ _ ih₁ ih₂ => exact ih₁.trans ih₂

lemma buildAgg_mem_iff (l : List (SKey × DecVal)) (k : SKey) (p : DecVal × DecVal) :
    (k, p) ∈ buildAgg l ↔
      ∃ t ts, groupTemps l k = t :: ts ∧ p = (ts.foldl dvMax t, ts.foldl dvMin t) := by
  constructor
  · intro h
    have hl := aggLookup_of_mem (buildAgg l) k p (buildAgg_keys_nodup l) h
    rw [buildAgg_lookup] at hl
    cases hg : groupTemps l k with
    | nil => rw [hg] at hl; cases hl
    | cons t ts =>
      rw [hg, foldl_comb1_none_cons] at hl
      injection hl with hl
      exact ⟨t, ts, rfl, hl.symm⟩
  · rintro ⟨t, ts, hg, rfl⟩
    apply mem_of_aggLookup
    rw [buildAgg_lookup, hg, foldl_comb1_none_cons]

lemma buildAgg_canon (l : List (SKey × DecVal)) (hc : ∀ x ∈ l, DecVal.canon x.2)
    (k : SKey) (t : DecVal) (h : t ∈ groupTemps l k) : DecVal.canon t :=
  hc (k, t) (groupTemps_mem l k t h)

lemma buildAgg_perm {l₁ l₂ : List (SKey × DecVal)} (hp : l₁.Perm l₂)
    (hc : ∀ x ∈ l₁, DecVal.canon x.2) :
    (buildAgg l₁).Perm (buildAgg l₂) := by
  have nd₁k := buildAgg_keys_nodup l₁
  have nd₂k := buildAgg_keys_nodup l₂
  have nd₁ : (buildAgg l₁).Nodup := List.Nodup.of_map _ nd₁k
  have nd₂ : (buildAgg l₂).Nodup := List.Nodup.of_map _ nd₂k
  apply List.perm_of_nodup_nodup_toFinset_eq nd₁ nd₂
  ext e
  simp only [List.mem_toFinset]
  cases e with
  | mk k p =>
    rw [buildAgg_mem_iff, buildAgg_mem_iff]
    have hgp := groupTemps_perm hp k
    constructor
    · rintro ⟨t, ts, hg, rfl⟩
      rw [hg] at hgp
      cases hg2 : groupTemps l₂ k with
      | nil =>
        rw [hg2] at hgp
        cases hgp.eq_nil
      | cons t2 ts2 =>
        rw [hg2] at hgp
        have hcg : ∀ x ∈ t :: ts, DecVal.canon x := by
          intro x hx
          exact buildAgg_canon l₁ hc k x (hg ▸ hx)
        exact ⟨t2, ts2, rfl, by
          rw [foldl_dvMax_perm t t2 ts ts2 hgp hcg, foldl_dvMin_perm t t2 ts ts2 hgp hcg]⟩
    · rintro ⟨t, ts, hg, rfl⟩
      rw [hg] at hgp
      cases hg1 : groupTemps l₁ k with
      | nil =>
        rw [hg1] at hgp
        cases hgp.symm.eq_nil
      | cons t1 ts1 =>
        rw [hg1] at hgp
        have hcg : ∀ x ∈ t1 :: ts1, DecVal.canon x := by
          intro x hx
          exact buildAgg_canon l₁ hc k x (hg1 ▸ hx)
        exact ⟨t1, ts1, rfl, by
          rw [foldl_dvMax_perm t1 t ts1 ts hgp hcg, foldl_dvMin_perm t1 t ts1 ts hgp hcg]⟩

lemma sorted_nodupkeys_eq : ∀ (l₁ l₂ : List AggEntry), l₁.Perm l₂ →
    l₁.Sorted entryLe → l₂.Sorted entryLe → (aggKeys l₁).Nodup → l₁ = l₂
  | [], l₂, hp, _, _, _ => hp.nil_eq
  | a :: t₁, l₂, hp, hs₁, hs₂, hnd => by
    cases l₂ with
    | nil => exact absurd hp.symm.nil_eq (by simp)
    | cons b t₂ =>
      have hab : a = b := by
        rcases List.mem_cons.mp (hp.symm.subset (List.mem_cons_self b t₂)) with h | hbt₁
        · exact h.symm
        · rcases List.mem_cons.mp (hp.subset (List.mem_cons_self a t₁)) with h | hat₂
          · exact h
          · have h₁ : entryLe a b := List.rel_of_sorted_cons hs₁ b hbt₁
            have h₂ : entryLe b a := List.rel_of_sorted_cons hs₂ a hat₂
            have hk : a.1 = b.1 := keyLe_antisymm h₁ h₂
            exfalso
            rw [aggKeys, List.map_cons] at hnd
            exact (List.nodup_cons.mp hnd).1
              (hk ▸ List.mem_map.mpr ⟨b, hbt₁, rfl⟩)
      subst hab
      have ht := hp.cons_inv
      rw [sorted_nodupkeys_eq t₁ t₂ ht hs₁.of_cons hs₂.of_cons
        (by rw [aggKeys, List.map_cons] at hnd; exact (List.nodup_cons.mp hnd).2)]

lemma parseFloat_canon (s : String) (v : DecVal) (h : parseFloat s = some v) :
    DecVal.canon v := by
  simp only [parseFloat] at h
  split at h
  · cases h
  · split at h
    · cases h
    · injection h with h
      exact h ▸ mkDecVal_canon _ _

lemma parseHistoryRow_ok (hd row : List String) (x : SKey × DecVal)
    (h : parseHistoryRow hd row = .ok x) :
    dictRowGet hd row "date" = some x.1.1 ∧ dictRowGet hd row "station" = some x.1.2 ∧
    ∃ ts, dictRowGet hd row "temperature" = some ts ∧ parseFloat ts = some x.2 := by
  unfold parseHistoryRow at h
  split at h <;> try (cases h)
  next d hd1 =>
  split at h <;> try (cases h)
  next sn hs1 =>
  split at h <;> try (cases h)
  next ts hts =>
  split at h <;> try (cases h)
  next t hpf =>
  exact ⟨hd1, hs1, ts, hts, hpf⟩

lemma parseRows_ok_cons (hd r : List String) (rest : List (List String))
    (L : List (SKey × DecVal)) (h : parseHistoryRows hd (r :: rest) = .ok L) :
    ∃ x Lr, parseHistoryRow hd r = .ok x ∧ parseHistoryRows hd rest = .ok Lr ∧
      L = x :: Lr := by
  rw [parseHistoryRows] at h
  split at h
  · cases h
  next x hx =>
    split at h
    · cases h
    next Lr hLr =>
      injection h with h
      exact ⟨x, Lr, hx, hLr, h.symm⟩

lemma parseRows_mem (hd : List String) : ∀ (rows : List (List String))
    (L : List (SKey × DecVal)), parseHistoryRows hd rows = .ok L →
    ∀ x, x ∈ L ↔ ∃ r ∈ rows, parseHistoryRow hd r = .ok x
  | [], L, h, x => by
    rw [parseHistoryRows] at h
    injection h with h
    subst h
    simp
  | r :: rest, L, h, x => by
    obtain ⟨y, Lr, hy, hLr, rfl⟩ := parseRows_ok_cons hd r rest L h
    constructor
    · intro hx
      rcases List.mem_cons.mp hx with rfl | hx
      · exact ⟨r, List.mem_cons_self r rest, hy⟩
      · obtain ⟨r', hr', hpx⟩ := (parseRows_mem hd rest Lr hLr x).mp hx
        exact ⟨r', List.mem_cons_of_mem r hr', hpx⟩
    · rintro ⟨r', hr', hpx⟩
      rcases List.mem_cons.mp hr' with rfl | hr'
      · have : Except.ok (ε := RunError) x = Except.ok y := hpx.symm.trans hy
        injection this with this
        exact this ▸ List.mem_cons_self x Lr
      · exact List.mem_cons_of_mem y
          ((parseRows_mem hd rest Lr hLr x).mpr ⟨r', hr', hpx⟩)

lemma parseRows_perm (hd : List String) {rows rows' : List (List String)}
    (hp : rows.Perm rows') : ∀ L, parseHistoryRows hd rows = .ok L →
      ∃ Lp, parseHistoryRows hd rows' = .ok Lp ∧ L.Perm Lp := by
  induction hp with
  | nil => intro L h; exact ⟨L, h, List.Perm.refl L⟩
  | cons x hp ih =>
    intro L h
    obtain ⟨y, Lr, hy, hLr, rfl⟩ := parseRows_ok_cons _ _ _ _ h
    obtain ⟨Lp, hLp, hperm⟩ := ih Lr hLr
    exact ⟨y :: Lp, by rw [parseHistoryRows, hy, hLp], hperm.cons y⟩
  | swap a b l =>
    intro L h
    obtain ⟨y, L1, hy, hL1, rfl⟩ := parseRows_ok_cons _ _ _ _ h
    obtain ⟨z, L2, hz, hL2, rfl⟩ := parseRows_ok_cons _ _ _ _ hL1
    exact ⟨z :: y :: L2, by rw [parseHistoryRows, hz, parseHistoryRows, hy, hL2],
      List.Perm.swap z y L2⟩
  | trans h₁ h₂ ih₁ ih₂ =>
    intro L h
    obtain ⟨L₂, hL₂, hp₁⟩ := ih₁ L h
    obtain ⟨L₃, hL₃, hp₂⟩ := ih₂ L₂ hL₂
    exact ⟨L₃, hL₃, hp₁.trans hp₂⟩

lemma parseRows_canon (hd : List String) (rows : List (List String))
    (L : List (SKey × DecVal)) (h : parseHistoryRows hd rows = .ok L) :
    ∀ x ∈ L, DecVal.canon x.2 := by
  intro x hx
  obtain ⟨r, _, hr⟩ := (parseRows_mem hd rows L h x).mp hx
  obtain ⟨_, _, ts, _, hpf⟩ := parseHistoryRow_ok hd r x hr
  exact parseFloat_canon ts x.2 hpf

lemma summaryOf_ok (hd : List String) (rows out : List (List String))
    (h : summaryOf (hd :: rows) = .ok out) :
    ∃ parsed, parseHistoryRows hd rows = .ok parsed ∧
      out = summaryHeader :: (List.insertionSort entryLe (buildAgg parsed)).map entryRow := by
  rw [summaryOf] at h
  split at h
  · cases h
  next parsed hparsed =>
    injection h with h
    exact ⟨parsed, hparsed, h.symm⟩


lemma rowKey2_entryRow (e : AggEntry) : rowKey2 (entryRow e) = e.1 := rfl

lemma parseRows_all_ok (hd : List String) : ∀ (rows : List (List String))
    (parsed : List (SKey × DecVal)), parseHistoryRows hd rows = .ok parsed →
    ∀ r ∈ rows, ∃ x, parseHistoryRow hd r = .ok x
  | [], _, _, r, hr => absurd hr (List.not_mem_nil r)
  | r0 :: rest, parsed, h, r, hr => by
    obtain ⟨x, Lr, hx, hLr, rfl⟩ := parseRows_ok_cons hd r0 rest parsed h
    rcases List.mem_cons.mp hr with rfl | hr
    · exact ⟨x, hx⟩
    · exact parseRows_all_ok hd rest Lr hLr r hr

lemma parseRows_keys (hd : List String) (rows : List (List String))
    (parsed : List (SKey × DecVal)) (h : parseHistoryRows hd rows = .ok parsed)
    (k : SKey) :
    k ∈ parsed.map (fun e => e.1) ↔
      ∃ r ∈ rows, dictRowGet hd r "date" = some k.1 ∧
        dictRowGet hd r "station" = some k.2 := by
  rw [List.mem_map]
  constructor
  · rintro ⟨x, hx, rfl⟩
    obtain ⟨r, hr, hpr⟩ := (parseRows_mem hd rows parsed h x).mp hx
    obtain ⟨h1, h2, _⟩ := parseHistoryRow_ok hd r x hpr
    exact ⟨r, hr, h1, h2⟩
  · rintro ⟨r, hr, h1, h2⟩
    obtain ⟨x, hx⟩ := parseRows_all_ok hd rows parsed h r hr
    obtain ⟨g1, g2, _⟩ := parseHistoryRow_ok hd r x hx
    have hk : x.1 = k := by
      have ha : x.1.1 = k.1 := Option.some.inj (g1.symm.trans h1)
      have hb : x.1.2 = k.2 := Option.some.inj (g2.symm.trans h2)
      exact Prod.ext_iff.mpr ⟨ha, hb⟩
    exact ⟨x, (parseRows_mem hd rows parsed h x).mpr ⟨r, hr, hx⟩, hk⟩

lemma mem_aggKeys_buildAgg (l : List (SKey × DecVal)) (k : SKey) :
    k ∈ aggKeys (buildAgg l) ↔ k ∈ l.map (fun e => e.1) := by
  constructor
  · intro h
    by_contra hc
    have : groupTemps l k = [] := (groupTemps_eq_nil l k).mpr hc
    have hnone : aggLookup (buildAgg l) k = none := by
      rw [buildAgg_lookup, this]
      rfl
    exact (aggLookup_eq_none (buildAgg l) k).mp hnone h
  · intro h
    by_contra hc
    have hnone : aggLookup (buildAgg l) k = none :=
      (aggLookup_eq_none (buildAgg l) k).mpr hc
    rw [buildAgg_lookup] at hnone
    have := foldl_comb1_none_eq_none hnone
    exact ((groupTemps_eq_nil l k).mp this) h

/-- C4: recompute rewrites the summary from scratch as a pure function of the
History data rows: a header line, then exactly one row per distinct
(date, station) key in strictly ascending lexicographic key order, and the
same output for any reordering of the History rows. -/
theorem C4_summary_sorted (hd : List String) (rows rows' out : List (List String))
    (st : FS) (hst : st.history = some (hd :: rows))
    (h : summaryOf (hd :: rows) = .ok out) (hp : rows.Perm rows') :
    recompute_daily_summary st = ({ st with summary := some out }, none) ∧
    summaryOf (hd :: rows') = .ok out ∧
    ∃ body, out = summaryHeader :: body ∧
      (body.map rowKey2).Pairwise keyLt ∧
      (∀ k : SKey, k ∈ body.map rowKey2 ↔
        ∃ r ∈ rows, dictRowGet hd r "date" = some k.1 ∧
          dictRowGet hd r "station" = some k.2) := by
  obtain ⟨parsed, hparsed, hout⟩ := summaryOf_ok hd rows out h
  have hcanon := parseRows_canon hd rows parsed hparsed
  obtain ⟨parsed', hparsed', hpermL⟩ := parseRows_perm hd hp parsed hparsed
  have hap : (buildAgg parsed).Perm (buildAgg parsed') := buildAgg_perm hpermL hcanon
  have hs₁ : (List.insertionSort entryLe (buildAgg parsed)).Sorted entryLe :=
    List.sorted_insertionSort entryLe _
  have hs₂ : (List.insertionSort entryLe (buildAgg parsed')).Sorted entryLe :=
    List.sorted_insertionSort entryLe _
  have hchain : (List.insertionSort entryLe (buildAgg parsed)).Perm
      (List.insertionSort entryLe (buildAgg parsed')) :=
    ((List.perm_insertionSort entryLe _).trans hap).trans
      (List.perm_insertionSort entryLe _).symm
  have hndsort : (aggKeys (List.insertionSort entryLe (buildAgg parsed))).Nodup := by
    have hmk : (aggKeys (List.insertionSort entryLe (buildAgg parsed))).Perm
        (aggKeys (buildAgg parsed)) :=
      (List.perm_insertionSort entryLe _).map _
    exact hmk.nodup_iff.mpr (buildAgg_keys_nodup parsed)
  have hsorteq := sorted_nodupkeys_eq _ _ hchain hs₁ hs₂ hndsort
  refine ⟨recompute_eq_ok st _ out hst h, ?_, ?_⟩
  · simp only [summaryOf, hparsed']
    rw [hout, hsorteq]
  · refine ⟨(List.insertionSort entryLe (buildAgg parsed)).map entryRow, hout, ?_, ?_⟩
    · have hmapkeys : ((List.insertionSort entryLe (buildAgg parsed)).map entryRow).map rowKey2 =
          (List.insertionSort entryLe (buildAgg parsed)).map (fun e => e.1) := by
        rw [List.map_map]
        rfl
      rw [hmapkeys]
      have hpw : (List.insertionSort entryLe (buildAgg parsed)).Pairwise
          (fun a b : AggEntry => keyLe a.1 b.1) := hs₁
      have hne : (List.insertionSort entryLe (buildAgg parsed)).Pairwise
          (fun a b : AggEntry => a.1 ≠ b.1) :=
        List.Pairwise.of_map (fun e => e.1) (fun _ _ hh => hh) hndsort
      exact (hpw.and hne).map _ (fun a b hh => keyLt_of_keyLe_ne hh.1 hh.2)
    · intro k
      have hmapkeys : ((List.insertionSort entryLe (buildAgg parsed)).map entryRow).map rowKey2 =
          (List.insertionSort entryLe (buildAgg parsed)).map (fun e => e.1) := by
        rw [List.map_map]
        rfl
      rw [hmapkeys]
      have hmem : k ∈ (List.insertionSort entryLe (buildAgg parsed)).map (fun e => e.1) ↔
          k ∈ aggKeys (buildAgg parsed) :=
        ((List.perm_insertionSort entryLe _).map (fun e => e.1)).mem_iff
      rw [hmem, mem_aggKeys_buildAgg, parseRows_keys hd rows parsed hparsed]

/-- C5: recomputing twice with no rows appended in between writes the summary
a second time with byte-identical content — the second call reproduces the
state the first call left, and the CSV bytes of the summary are unchanged. -/
theorem C5_recompute_idempotent (st st1 : FS)
    (h : recompute_daily_summary st = (st1, none)) :
    recompute_daily_summary st1 = (st1, none) ∧
    csvBytes (((recompute_daily_summary st1).1).summary.getD []) =
      csvBytes (st1.summary.getD []) := by
  have main : recompute_daily_summary st1 = (st1, none) := by
    cases hh : st.history with
    | none =>
      rw [recompute_eq_none st hh] at h
      injection h with h1 h2
      subst h1
      exact recompute_eq_none st hh
    | some f =>
      cases hs : summaryOf f with
      | error e =>
        rw [recompute_eq_err st f e hh hs] at h
        injection h with h1 h2
        cases h2
      | ok out =>
        rw [recompute_eq_ok st f out hh hs] at h
        injection h with h1 h2
        subst h1
        exact recompute_eq_ok _ f out hh hs
  exact ⟨main, by rw [main]⟩

/-- C6: for every (date, station) key of the aggregates dict, the stored max
is a member of and an upper bound of that key's temperatures, the stored min
a member and lower bound, hence min is at most max. -/
theorem C6_group_max_min (l : List (SKey × DecVal)) (k : SKey) (mx mn : DecVal)
    (h : (k, (mx, mn)) ∈ buildAgg l) :
    mx ∈ groupTemps l k ∧ (∀ t ∈ groupTemps l k, dvLe t mx) ∧
    mn ∈ groupTemps l k ∧ (∀ t ∈ groupTemps l k, dvLe mn t) ∧ dvLe mn mx := by
  obtain ⟨t, ts, hg, hpair⟩ := (buildAgg_mem_iff l k (mx, mn)).mp h
  injection hpair with h1 h2
  subst h1
  subst h2
  rw [hg]
  refine ⟨foldl_dvMax_mem ts t, ?_, foldl_dvMin_mem ts t, ?_, ?_⟩
  · exact fun x hx => dvLe_foldl_dvMax ts t x hx
  · exact fun x hx => foldl_dvMin_le ts t x hx
  · exact foldl_dvMin_le ts t _ (foldl_dvMax_mem ts t)


theorem C4_witness :
    summaryOf [historyHeader, hRowA, hRowB] = .ok outEx ∧
    recompute_daily_summary (FS.mk none (some [historyHeader, hRowB, hRowA]) none) =
      (FS.mk none (some [historyHeader, hRowB, hRowA]) (some outEx), none) := by
  have h := C4_summary_sorted historyHeader [hRowB, hRowA] [hRowA, hRowB] outEx
    (FS.mk none (some [historyHeader, hRowB, hRowA]) none) rfl (by decide) (by decide)
  exact ⟨h.2.1, h.1⟩


theorem C5_witness : recompute_daily_summary stC5x = (stC5x, none) :=
  (C5_recompute_idempotent stC5 stC5x (by decide)).1


theorem C6_witness :
    buildAgg exGroup = [(("2024-01-01", "X"), (⟨232, 1⟩ : DecVal), (⟨19, 0⟩ : DecVal))] ∧
    (⟨232, 1⟩ : DecVal) ∈ groupTemps exGroup ("2024-01-01", "X") ∧
    (⟨19, 0⟩ : DecVal) ∈ groupTemps exGroup ("2024-01-01", "X") ∧
    dvLe ⟨19, 0⟩ ⟨232, 1⟩ := by
  have h := C6_group_max_min exGroup ("2024-01-01", "X") ⟨232, 1⟩ ⟨19, 0⟩ (by decide)
  exact ⟨by decide, h.1, h.2.2.1, h.2.2.2.2⟩
